import Mathlib

/-!
Verification of the `asl` sign-list parser (`ogsl.py`).

Python strings are modelled as lists of characters (`PyStr`); the glyph
field, which may hold arbitrary code points produced by `chr`, is modelled
as a list of natural-number code points.  Python exceptions are modelled
with `Except`, and the generator `parse_asl` as a fold over the input
lines that records, besides the parser state, the sequence of yielded
references.  Because the generator yields the *mutable* current record,
emitted values are represented as references (indices) into a heap of
records; `collected` reads each reference off the final heap, which is
what a consumer that first drains the generator observes.
-/

set_option maxHeartbeats 1000000

namespace Ogsl

/-- Python strings (for input lines and string fields): lists of characters. -/
abbrev PyStr := List Char

/-- Convert a Lean string literal to a `PyStr`. -/
def pystr (s : String) : PyStr := s.toList

/-- The set of characters for which Python `str.isspace()` is true
(the characters stripped by `str.strip()` and separating `str.split()`). -/
def pyIsSpace (c : Char) : Bool :=
  let n := c.toNat
  (9 ≤ n && n ≤ 13) || (28 ≤ n && n ≤ 31) || n == 32 || n == 133 || n == 160 ||
    n == 5760 || (8192 ≤ n && n ≤ 8202) || n == 8232 || n == 8233 ||
    n == 8239 || n == 8287 || n == 12288

/-- Python `line.strip()`: remove leading and trailing whitespace. -/
def pyStrip (s : PyStr) : PyStr :=
  ((s.dropWhile pyIsSpace).reverse.dropWhile pyIsSpace).reverse

/-- Python `s.startswith(p)`. -/
def startswith (s p : PyStr) : Bool := p.isPrefixOf s

/-- Python `s.split(maxsplit=n)`: split on runs of whitespace, performing at
most `n` splits; no empty strings are produced, and once `n` splits are done
the remainder (leading whitespace already consumed) is the final element. -/
def pySplitMax (n : Nat) (s : PyStr) : List PyStr :=
  let t := s.dropWhile pyIsSpace
  if t = [] then []
  else
    match n with
    | 0 => [t]
    | Nat.succ m =>
        t.takeWhile (fun c => !pyIsSpace c) ::
          pySplitMax m (t.dropWhile (fun c => !pyIsSpace c))

/-- `rest_of` from `ogsl.py`: `_, rest = line.split(maxsplit=1)`.
The unpacking raises `ValueError` (modelled as `none`) unless the split
yields exactly two parts. -/
def rest_of (line : PyStr) : Option PyStr :=
  match pySplitMax 1 line with
  | [_, rest] => some rest
  | _ => none

/-- Python `s.split('.')`: split on every dot, keeping empty pieces. -/
def pySplitDot : PyStr → List PyStr
  | [] => [[]]
  | c :: rest =>
      if c = '.' then [] :: pySplitDot rest
      else
        match pySplitDot rest with
        | [] => [[c]]
        | t :: ts => (c :: t) :: ts

/-- The regex character class `[0-9a-fA-F]` of `ucode_pattern`. -/
def pyIsHexDigit (c : Char) : Bool :=
  ('0' ≤ c && c ≤ '9') || ('a' ≤ c && c ≤ 'f') || ('A' ≤ c && c ≤ 'F')

/-- Value of one hex digit. -/
def hexVal (c : Char) : Nat :=
  if '0' ≤ c && c ≤ '9' then c.toNat - 48
  else if 'a' ≤ c && c ≤ 'f' then c.toNat - 87
  else c.toNat - 55

/-- `int(s, 16)` on a nonempty string of hex digits. -/
def hexToNat (s : PyStr) : Nat := s.foldl (fun acc c => 16 * acc + hexVal c) 0

/-- `re.match(r'x?([0-9a-fA-F]+)', code)`: the captured group, when the
pattern matches at the start of `code`.  The match is unanchored at the
right, so the group is the longest run of hex digits after an optional
leading `x`. -/
def ucodeGroup : PyStr → Option PyStr
  | [] => none
  | c :: rest =>
      if c = 'x' then
        match rest.takeWhile pyIsHexDigit with
        | [] => none
        | g => some g
      else if pyIsHexDigit c then some ((c :: rest).takeWhile pyIsHexDigit)
      else none

/-- Python exceptions that `parse_asl` can raise. -/
inductive PyErr where
  | valueError
  | indexError
  | attributeError
deriving DecidableEq, Repr

instance {ε α : Type} [DecidableEq ε] [DecidableEq α] : DecidableEq (Except ε α)
  | .error a, .error b =>
      if h : a = b then isTrue (by rw [h]) else isFalse (fun hh => h (Except.error.inj hh))
  | .error _, .ok _ => isFalse (fun hh => Except.noConfusion hh)
  | .ok _, .error _ => isFalse (fun hh => Except.noConfusion hh)
  | .ok a, .ok b =>
      if h : a = b then isTrue (by rw [h]) else isFalse (fun hh => h (Except.ok.inj hh))

/-- `ucode_to_char` from `ogsl.py`: on a regex match, `chr(int(group, 16))`
(one code point, `ValueError` above `0x10FFFF`); otherwise the token itself.
The result is a Python string given as a list of code points. -/
def ucode_to_char (code : PyStr) : Except PyErr (List Nat) :=
  match ucodeGroup code with
  | some g =>
      let v := hexToNat g
      if v ≤ 0x10FFFF then .ok [v] else .error .valueError
  | none => .ok (code.map Char.toNat)

/-- `''.join(map(ucode_to_char, codes))`: decode each token left to right
and concatenate; the first exception propagates. -/
def joinChr : List PyStr → Except PyErr (List Nat)
  | [] => .ok []
  | t :: rest => do
      let c ← ucode_to_char t
      let r ← joinChr rest
      pure (c ++ r)

/-- The `OgslSign` record.  Field `sign` (the glyph) holds code points. -/
structure OgslSign where
  name : PyStr
  lists : List PyStr
  sign : List Nat
  values : List PyStr
  fake : Bool
deriving DecidableEq, Repr

/-- `OgslSign(name)`: a fresh record with the given name. -/
def mkSign (name : PyStr) : OgslSign :=
  { name := name, lists := [], sign := [], values := [], fake := false }

/-- Messages sent to the logging sink by `parse_asl`. -/
inductive Report where
  | errEnd (line : PyStr)
  | warnUnrecognized (line : PyStr)
deriving DecidableEq, Repr

/-- Parser state: the heap of allocated records, the reference held by the
`sign` variable (an index into the heap, `none` initially), the references
yielded so far, and the log messages issued so far. -/
structure ParseState where
  heap : List OgslSign
  cur : Option Nat
  outputs : List (Option Nat)
  reports : List Report
deriving DecidableEq, Repr

/-- Replace the record at index `i` by `f` of it (mutation of the object the
`sign` variable points to). -/
def updateAt (f : OgslSign → OgslSign) : Nat → List OgslSign → List OgslSign
  | _, [] => []
  | 0, s :: rest => f s :: rest
  | Nat.succ n, s :: rest => s :: updateAt f n rest

/-- One iteration of the loop body of `parse_asl` on a raw input line.
Branches appear in source order; Python's left-to-right evaluation decides
which exception is raised when several are possible. -/
def processLine (st : ParseState) (raw : PyStr) : Except PyErr ParseState :=
  let line := pyStrip raw
  if line = [] then .ok st
  else if startswith line (pystr "@sign") then
    match rest_of line with
    | none => .error .valueError
    | some name =>
        .ok { st with heap := st.heap ++ [mkSign name], cur := some st.heap.length }
  else if startswith line (pystr "@end sign") then
    .ok { st with outputs := st.outputs ++ [st.cur] }
  else if startswith line (pystr "@end") then
    .ok { st with reports := st.reports ++ [.errEnd line] }
  else if startswith line (pystr "@ucode") then
    match rest_of line with
    | none => .error .valueError
    | some rest =>
        match joinChr (pySplitDot rest) with
        | .error e => .error e
        | .ok glyph =>
            match st.cur with
            | none => .error .attributeError
            | some i => .ok { st with heap := updateAt (fun s => { s with sign := glyph }) i st.heap }
  else if startswith line (pystr "@v") then
    match st.cur with
    | none => .error .attributeError
    | some i =>
        match pySplitMax 2 line with
        | _ :: v :: _ =>
            .ok { st with heap := updateAt (fun s => { s with values := s.values ++ [v] }) i st.heap }
        | _ => .error .indexError
  else if startswith line (pystr "@list") then
    match rest_of line with
    | none => .error .valueError
    | some citation =>
        match st.cur with
        | none => .error .attributeError
        | some i =>
            .ok { st with heap := updateAt (fun s => { s with lists := s.lists ++ [pyStrip citation] }) i st.heap }
  else if startswith line (pystr "@fake") then
    match rest_of line with
    | none => .error .valueError
    | some rest =>
        match st.cur with
        | none => .error .attributeError
        | some i =>
            .ok { st with heap := updateAt (fun s => { s with fake := !rest.isEmpty }) i st.heap }
  else if startswith line (pystr "@uname") then .ok st
  else if startswith line (pystr "@uphase") then .ok st
  else if startswith line (pystr "@note") then .ok st
  else if startswith line (pystr "@inote") then .ok st
  else if startswith line (pystr "@form") then .ok st
  else if startswith line (pystr "@lit") then .ok st
  else if startswith line (pystr "@pname") then .ok st
  else .ok { st with reports := st.reports ++ [.warnUnrecognized line] }

/-- The outcome of running `parse_asl` over a finite input: the yielded
references, the final heap, the log messages, and the exception that ended
iteration early, if any. -/
structure ParseResult where
  outputs : List (Option Nat)
  heap : List OgslSign
  reports : List Report
  err : Option PyErr
deriving DecidableEq, Repr

/-- Drive the loop of `parse_asl` from a given state over the remaining
lines; an exception stops iteration, keeping the values yielded so far. -/
def runLines (st : ParseState) : List PyStr → ParseResult
  | [] => ⟨st.outputs, st.heap, st.reports, none⟩
  | l :: rest =>
      match processLine st l with
      | .ok st' => runLines st' rest
      | .error e => ⟨st.outputs, st.heap, st.reports, some e⟩

/-- The initial parser state: `sign = None`, nothing yielded, nothing logged. -/
def initState : ParseState := ⟨[], none, [], []⟩

/-- `parse_asl` on a finite list of input lines. -/
def parse_asl (lines : List PyStr) : ParseResult := runLines initState lines

/-- What a consumer that drains the whole generator before looking at any
record observes: each yielded reference read off the final heap (`none`
models a yielded Python `None`). -/
def collected (r : ParseResult) : List (Option OgslSign) :=
  r.outputs.map (fun o => o.map (fun i => r.heap.getD i (mkSign [])))

/-- A line whose stripped form begins with one of the recognized-but-ignored
tags (the `continue` branches of `parse_asl`). -/
def isIgnoredLine (raw : PyStr) : Bool :=
  let l := pyStrip raw
  startswith l (pystr "@uname") || startswith l (pystr "@uphase") ||
    startswith l (pystr "@note") || startswith l (pystr "@inote") ||
    startswith l (pystr "@form") || startswith l (pystr "@lit") ||
    startswith l (pystr "@pname")

/-- Every tag prefix `parse_asl` tests a line against. -/
def knownTags : List PyStr :=
  [pystr "@sign", pystr "@end sign", pystr "@end", pystr "@ucode", pystr "@v",
   pystr "@list", pystr "@fake", pystr "@uname", pystr "@uphase", pystr "@note",
   pystr "@inote", pystr "@form", pystr "@lit", pystr "@pname"]

/-- Whether a stripped line begins with any known tag; a nonblank line with
no such prefix is the "unrecognized line" case. -/
def recognizedTag (l : PyStr) : Bool := knownTags.any (fun p => startswith l p)

/-! ### Helper lemmas -/

lemma pystr_sign : pystr "@sign" = ['@', 's', 'i', 'g', 'n'] := rfl

lemma pystr_endsign : pystr "@end sign" = ['@', 'e', 'n', 'd', ' ', 's', 'i', 'g', 'n'] := rfl

lemma pystr_end : pystr "@end" = ['@', 'e', 'n', 'd'] := rfl

lemma pystr_ucode : pystr "@ucode" = ['@', 'u', 'c', 'o', 'd', 'e'] := rfl

lemma pystr_v : pystr "@v" = ['@', 'v'] := rfl

lemma pystr_list : pystr "@list" = ['@', 'l', 'i', 's', 't'] := rfl

lemma pystr_fake : pystr "@fake" = ['@', 'f', 'a', 'k', 'e'] := rfl

lemma pystr_uname : pystr "@uname" = ['@', 'u', 'n', 'a', 'm', 'e'] := rfl

lemma pystr_uphase : pystr "@uphase" = ['@', 'u', 'p', 'h', 'a', 's', 'e'] := rfl

lemma pystr_note : pystr "@note" = ['@', 'n', 'o', 't', 'e'] := rfl

lemma pystr_inote : pystr "@inote" = ['@', 'i', 'n', 'o', 't', 'e'] := rfl

lemma pystr_form : pystr "@form" = ['@', 'f', 'o', 'r', 'm'] := rfl

lemma pystr_lit : pystr "@lit" = ['@', 'l', 'i', 't'] := rfl

lemma pystr_pname : pystr "@pname" = ['@', 'p', 'n', 'a', 'm', 'e'] := rfl

/-- A successful `startswith` exposes the line as tag plus remainder. -/
lemma startswith_exists {s p : PyStr} (h : startswith s p = true) : ∃ t, s = p ++ t := by
  rw [startswith, List.isPrefixOf_iff_prefix] at h
  obtain ⟨t, ht⟩ := h
  exact ⟨t, ht.symm⟩

/-- A tag is a prefix of itself followed by anything. -/
lemma startswith_append_self (p t : PyStr) : startswith (p ++ t) p = true := by
  rw [startswith, List.isPrefixOf_iff_prefix]
  exact ⟨t, rfl⟩

/-- `s.split(maxsplit=n)` yields at most `n + 1` pieces. -/
lemma pySplitMax_length (n : Nat) : ∀ s : PyStr, (pySplitMax n s).length ≤ n + 1 := by
  induction n with
  | zero =>
      intro s
      rw [pySplitMax]
      split
      · simp
      · simp
  | succ m ih =>
      intro s
      rw [pySplitMax]
      split
      · simp
      · simpa [Nat.succ_le_succ_iff] using ih _

/-- Whatever `dropWhile` returns starts with an element refuting the predicate. -/
lemma dropWhile_head_false {p : Char → Bool} : ∀ {s t : PyStr} {c : Char},
    s.dropWhile p = c :: t → p c = false := by
  intro s
  induction s with
  | nil => intro t c h; simp [List.dropWhile] at h
  | cons a s ih =>
      intro t c h
      rw [List.dropWhile_cons] at h
      by_cases hp : p a
      · rw [if_pos hp] at h
        exact ih h
      · rw [if_neg hp] at h
        obtain ⟨h1, _⟩ := List.cons.inj h
        rw [← h1]
        exact Bool.eq_false_iff.mpr hp

/-- No piece produced by Python whitespace `split` is empty. -/
lemma pySplitMax_mem_ne_nil (n : Nat) : ∀ (s x : PyStr), x ∈ pySplitMax n s → x ≠ [] := by
  induction n with
  | zero =>
      intro s x hx
      rw [pySplitMax] at hx
      split at hx
      · simp at hx
      · rename_i hne
        simp only [List.mem_singleton] at hx
        simpa [hx] using hne
  | succ m ih =>
      intro s x hx
      rw [pySplitMax] at hx
      split at hx
      · simp at hx
      · rename_i hne
        simp only [List.mem_cons] at hx
        rcases hx with hx | hx
        · cases hh : (s.dropWhile pyIsSpace) with
          | nil => exact absurd hh hne
          | cons c cs =>
              have hc : pyIsSpace c = false := dropWhile_head_false hh
              rw [hx, hh, List.takeWhile_cons, hc]
              simp
        · exact ih _ _ hx

/-- `rest_of` never returns the empty string (the remainder, when the
unpacking succeeds, has consumed the separating whitespace but is nonempty). -/
lemma rest_of_ne_nil {l r : PyStr} (h : rest_of l = some r) : r ≠ [] := by
  unfold rest_of at h
  split at h
  · rename_i a b heq
    obtain rfl : b = r := Option.some.inj h
    exact pySplitMax_mem_ne_nil 1 l _ (by rw [heq]; simp)
  · exact absurd h (by simp)

/-- A line that starts with a nonempty tag is itself nonempty. -/
lemma startswith_ne_nil {l : PyStr} {c : Char} {p : PyStr}
    (h : startswith l (c :: p) = true) : l ≠ [] := by
  intro hl
  rw [hl] at h
  simp [startswith] at h

/-- The `@sign` branch: allocate a fresh record named by the remainder, point
the current-record reference at it, and emit nothing. -/
lemma processLine_sign (st : ParseState) (raw : PyStr) (name : PyStr)
    (h1 : startswith (pyStrip raw) (pystr "@sign") = true)
    (h2 : rest_of (pyStrip raw) = some name) :
    processLine st raw =
      .ok { st with heap := st.heap ++ [mkSign name], cur := some st.heap.length } := by
  have hne : pyStrip raw ≠ [] := startswith_ne_nil (pystr_sign ▸ h1)
  simp only [processLine]
  rw [if_neg hne, if_pos h1, h2]

/-- The malformed-`@end` branch: report the line and change nothing else. -/
lemma processLine_malformed_end (st : ParseState) (raw : PyStr)
    (h1 : startswith (pyStrip raw) (pystr "@end") = true)
    (h2 : startswith (pyStrip raw) (pystr "@end sign") = false) :
    processLine st raw =
      .ok { st with reports := st.reports ++ [Report.errEnd (pyStrip raw)] } := by
  obtain ⟨t, teq⟩ := startswith_exists h1
  rw [teq] at h2
  simp only [processLine, teq]
  rw [if_neg (by simp [pystr_end])]
  rw [if_neg (by simp [startswith, pystr_sign, pystr_end, List.isPrefixOf_cons₂])]
  rw [if_neg (by simp [h2])]
  rw [if_pos (startswith_append_self (pystr "@end") t)]

/-- The `@end sign` branch (a prefix test): emit the current reference. -/
lemma processLine_end_sign (st : ParseState) (raw : PyStr)
    (h1 : startswith (pyStrip raw) (pystr "@end sign") = true) :
    processLine st raw = .ok { st with outputs := st.outputs ++ [st.cur] } := by
  obtain ⟨t, teq⟩ := startswith_exists h1
  simp only [processLine, teq]
  rw [if_neg (by simp [pystr_endsign])]
  rw [if_neg (by simp [startswith, pystr_sign, pystr_endsign, List.isPrefixOf_cons₂])]
  rw [if_pos (startswith_append_self (pystr "@end sign") t)]

/-- The `@v` branch with an open record and at least two tokens: append
exactly the second token to the record's values. -/
lemma processLine_value (st : ParseState) (raw : PyStr) (i : Nat)
    (tok v : PyStr) (rest : List PyStr)
    (hcur : st.cur = some i)
    (h1 : startswith (pyStrip raw) (pystr "@v") = true)
    (h2 : pySplitMax 2 (pyStrip raw) = tok :: v :: rest) :
    processLine st raw =
      .ok { st with
        heap := updateAt (fun s => { s with values := s.values ++ [v] }) i st.heap } := by
  obtain ⟨t, teq⟩ := startswith_exists h1
  rw [teq] at h2
  simp only [processLine, teq]
  rw [if_neg (by simp [pystr_v])]
  rw [if_neg (by simp [startswith, pystr_sign, pystr_v, List.isPrefixOf_cons₂])]
  rw [if_neg (by simp [startswith, pystr_endsign, pystr_v, List.isPrefixOf_cons₂])]
  rw [if_neg (by simp [startswith, pystr_end, pystr_v, List.isPrefixOf_cons₂])]
  rw [if_neg (by simp [startswith, pystr_ucode, pystr_v, List.isPrefixOf_cons₂])]
  rw [if_pos (startswith_append_self (pystr "@v") t)]
  rw [hcur, h2]

/-- The `@fake` branch with an open record and a remainder: the remainder is
never empty, so the flag is set to `true` unconditionally. -/
lemma processLine_fake (st : ParseState) (raw : PyStr) (i : Nat) (rest : PyStr)
    (hcur : st.cur = some i)
    (h1 : startswith (pyStrip raw) (pystr "@fake") = true)
    (h2 : rest_of (pyStrip raw) = some rest) :
    processLine st raw =
      .ok { st with heap := updateAt (fun s => { s with fake := true }) i st.heap } := by
  have hrest : rest.isEmpty = false := by
    have hne := rest_of_ne_nil h2
    cases rest with
    | nil => exact absurd rfl hne
    | cons a l => rfl
  obtain ⟨t, teq⟩ := startswith_exists h1
  rw [teq] at h2
  simp only [processLine, teq]
  rw [if_neg (by simp [pystr_fake])]
  rw [if_neg (by simp [startswith, pystr_sign, pystr_fake, List.isPrefixOf_cons₂])]
  rw [if_neg (by simp [startswith, pystr_endsign, pystr_fake, List.isPrefixOf_cons₂])]
  rw [if_neg (by simp [startswith, pystr_end, pystr_fake, List.isPrefixOf_cons₂])]
  rw [if_neg (by simp [startswith, pystr_ucode, pystr_fake, List.isPrefixOf_cons₂])]
  rw [if_neg (by simp [startswith, pystr_v, pystr_fake, List.isPrefixOf_cons₂])]
  rw [if_neg (by simp [startswith, pystr_list, pystr_fake, List.isPrefixOf_cons₂])]
  rw [if_pos (startswith_append_self (pystr "@fake") t)]
  simp only [h2, hcur]
  simp [hrest]

/-- The unrecognized-line branch: a nonblank line matching no known tag is
reported as a warning and nothing else changes. -/
lemma processLine_unrecognized (st : ParseState) (raw : PyStr)
    (h1 : pyStrip raw ≠ [])
    (h2 : recognizedTag (pyStrip raw) = false) :
    processLine st raw =
      .ok { st with reports := st.reports ++ [Report.warnUnrecognized (pyStrip raw)] } := by
  simp only [recognizedTag, knownTags, List.any_cons, List.any_nil,
    Bool.or_eq_false_iff] at h2
  obtain ⟨hs, hes, he, hu, hv, hl, hf, hun, hup, hno, hin, hfo, hli, hpn, -⟩ := h2
  simp only [processLine]
  rw [if_neg h1, if_neg (by simp [hs]), if_neg (by simp [hes]), if_neg (by simp [he]),
    if_neg (by simp [hu]), if_neg (by simp [hv]), if_neg (by simp [hl]),
    if_neg (by simp [hf]), if_neg (by simp [hun]), if_neg (by simp [hup]),
    if_neg (by simp [hno]), if_neg (by simp [hin]), if_neg (by simp [hfo]),
    if_neg (by simp [hli]), if_neg (by simp [hpn])]

/-- Processing an ignored-tag line leaves the parser state untouched. -/
lemma ignored_processLine (st : ParseState) (raw : PyStr)
    (h : isIgnoredLine raw = true) : processLine st raw = .ok st := by
  simp only [isIgnoredLine, Bool.or_eq_true] at h
  rcases h with ((((((h | h) | h) | h) | h) | h) | h) <;>
    · obtain ⟨t, teq⟩ := startswith_exists h
      simp [processLine, teq, startswith, pystr_sign, pystr_endsign, pystr_end,
        pystr_ucode, pystr_v, pystr_list, pystr_fake, pystr_uname, pystr_uphase,
        pystr_note, pystr_inote, pystr_form, pystr_lit, pystr_pname,
        List.isPrefixOf_cons₂]

/-- Dropping the ignored-tag lines from the input does not change the run. -/
lemma runLines_filter_ignored (lines : List PyStr) : ∀ st : ParseState,
    runLines st lines = runLines st (lines.filter (fun l => !isIgnoredLine l)) := by
  induction lines with
  | nil => intro st; rfl
  | cons l rest ih =>
      intro st
      by_cases h : isIgnoredLine l
      · rw [List.filter_cons_of_neg (by simp [h])]
        rw [runLines, ignored_processLine st l h]
        exact ih st
      · rw [List.filter_cons_of_pos (by simp [h])]
        rw [runLines, runLines]
        cases hp : processLine st l with
        | ok st' => exact ih st'
        | error e => rfl

example : pystr "@ab" = ['@', 'a', 'b'] := by decide

example : pySplitMax 1 (pystr " a  b c ") = [pystr "a", pystr "b c "] := by decide

example : pySplitMax 1 (pystr "a   ") = [pystr "a"] := by decide

example : rest_of (pystr "@sign") = none := by decide

example : pySplitDot (pystr "x41.x42") = [pystr "x41", pystr "x42"] := by decide

example : ucode_to_char (pystr "x41") = .ok [65] := by decide

example : ucode_to_char (pystr "41Z") = .ok [65] := by decide

example : ucode_to_char (pystr "zzz") = .ok [122, 122, 122] := by decide

example :
    parse_asl [pystr "@sign AB", pystr "@ucode 1234", pystr "@end sign"] =
      ⟨[some 0], [⟨pystr "AB", [], [0x1234], [], false⟩], [], none⟩ := by decide

/-- A hex digit is never the letter `x`. -/
lemma pyIsHexDigit_ne_x {c : Char} (h : pyIsHexDigit c = true) : c ≠ 'x' :=
  fun hc => by subst hc; exact absurd h (by decide)

/-- `takeWhile` swallows exactly a block that satisfies the predicate when
the following character (if any) refutes it. -/
lemma takeWhile_append_of_all (pre suf : PyStr)
    (h1 : ∀ c ∈ pre, pyIsHexDigit c = true)
    (h2 : suf.head?.all (fun c => !pyIsHexDigit c) = true) :
    (pre ++ suf).takeWhile pyIsHexDigit = pre := by
  induction pre with
  | nil =>
      cases suf with
      | nil => rfl
      | cons d ds =>
          simp only [List.head?_cons, Option.all_some, Bool.not_eq_eq_eq_not,
            Bool.not_true] at h2
          simp [List.takeWhile_cons, h2]
  | cons a as ih =>
      have ha := h1 a (by simp)
      simp only [List.cons_append, List.takeWhile_cons, ha, if_pos]
      rw [ih (fun c hc => h1 c (List.mem_cons_of_mem _ hc))]

/-! ### Claim theorems -/

/-- C6: inserting any number of ignored-tag lines (`@note`, `@uname`, `@form`
and the other recognized-no-op tags) at any positions leaves the parse result
unchanged: parsing any input gives exactly the result of parsing the same
input with all ignored-tag lines removed. -/
theorem ignored_lines_are_no_ops (lines : List PyStr) :
    parse_asl lines = parse_asl (lines.filter (fun l => !isIgnoredLine l)) :=
  runLines_filter_ignored lines initState

/-- C9: an `@end sign` line arriving before any `@sign` line makes `parse_asl`
yield the value `None` (not a record), with no error reported, so a consumer
can receive `None` among the produced values. -/
theorem end_before_sign_yields_none :
    parse_asl [pystr "@end sign"] = ⟨[none], [], [], none⟩ ∧
    collected (parse_asl [pystr "@end sign"]) = [none] := by decide

/-- C10: after a record is emitted by `@end sign` the current-record
reference still points to it, so a later `@v` line mutates the emitted
record and a second `@end sign` emits the very same record again: the input
`[@sign A, @end sign, @v v1 x, @end sign]` yields the same reference twice,
and a consumer that drains the generator sees two records, both named `A`
and both with values `["v1"]`. -/
theorem emitted_record_aliasing :
    (parse_asl [pystr "@sign A", pystr "@end sign", pystr "@v v1 x",
        pystr "@end sign"]).outputs = [some 0, some 0] ∧
    collected (parse_asl [pystr "@sign A", pystr "@end sign", pystr "@v v1 x",
        pystr "@end sign"]) =
      [some ⟨pystr "A", [], [], [pystr "v1"], false⟩,
       some ⟨pystr "A", [], [], [pystr "v1"], false⟩] ∧
    (parse_asl [pystr "@sign A", pystr "@end sign", pystr "@v v1 x",
        pystr "@end sign"]).err = none := by decide

/-- C1 counterexample: `parse_asl` does raise: a bare `@sign` line raises
`ValueError` (tuple unpacking in `rest_of`), and a field line with no open
record raises `AttributeError`, ending iteration. -/
theorem bare_tag_line_raises :
    (parse_asl [pystr "@sign"]).err = some PyErr.valueError ∧
    (parse_asl [pystr "@ucode 41"]).err = some PyErr.attributeError := by decide

/-- C2 counterexample: the end-of-record check is a prefix test, so the line
`@end signs` (the record-end tag as a strict prefix) *emits* the current
record and reports nothing, instead of being reported and skipped. -/
theorem end_signs_line_emits :
    (parse_asl [pystr "@sign A", pystr "@end signs"]).outputs = [some 0] ∧
    (parse_asl [pystr "@sign A", pystr "@end signs"]).reports = [] := by decide

/-- C3 counterexample: on the token `41Z` — not a hexadecimal string, so by
the claim it should come back unchanged — the decoder nevertheless returns
`chr(0x41)`, because the regex match is not anchored at the right. -/
theorem ucode_decodes_despite_trailing_garbage :
    ucode_to_char (pystr "41Z") = .ok [0x41] ∧
    (pystr "41Z").map Char.toNat ≠ [0x41] ∧
    ¬ (∀ c ∈ pystr "41Z", pyIsHexDigit c = true) := by decide

/-- C1 amended: malformed `@end`-prefixed lines and wholly unrecognized
lines never raise — they are reported and skipped and iteration continues —
but `parse_asl` is not exception-free: a tag line with no remainder raises
`ValueError`, a `@v` line with fewer than two tokens in an open record
raises `IndexError`, a field line with no open record raises
`AttributeError`, and a codepoint above `0x10FFFF` raises `ValueError`,
each ending iteration early. -/
theorem reported_lines_never_raise :
    (∀ (st : ParseState) (raw : PyStr),
        startswith (pyStrip raw) (pystr "@end") = true →
        startswith (pyStrip raw) (pystr "@end sign") = false →
        processLine st raw =
          .ok { st with reports := st.reports ++ [Report.errEnd (pyStrip raw)] }) ∧
    (∀ (st : ParseState) (raw : PyStr),
        pyStrip raw ≠ [] → recognizedTag (pyStrip raw) = false →
        processLine st raw =
          .ok { st with reports := st.reports ++ [Report.warnUnrecognized (pyStrip raw)] }) ∧
    (parse_asl [pystr "@fake"]).err = some PyErr.valueError ∧
    (parse_asl [pystr "@sign A", pystr "@v"]).err = some PyErr.indexError ∧
    (parse_asl [pystr "@v a b"]).err = some PyErr.attributeError ∧
    (parse_asl [pystr "@sign A", pystr "@ucode 110000"]).err = some PyErr.valueError :=
  ⟨fun st raw h1 h2 => processLine_malformed_end st raw h1 h2,
   fun st raw h1 h2 => processLine_unrecognized st raw h1 h2,
   by decide, by decide, by decide, by decide⟩

/-- C1 witness: the two no-raise branches at concrete inputs. -/
theorem reported_lines_never_raise_witness :
    processLine initState (pystr "@end foo") =
      .ok { initState with reports := [Report.errEnd (pystr "@end foo")] } ∧
    processLine initState (pystr "hello") =
      .ok { initState with reports := [Report.warnUnrecognized (pystr "hello")] } :=
  ⟨reported_lines_never_raise.1 initState (pystr "@end foo") (by decide) (by decide),
   reported_lines_never_raise.2.1 initState (pystr "hello") (by decide) (by decide)⟩

/-- C2 amended: a stripped line beginning with `@end` but *not* beginning
with `@end sign` is reported as an error, skipped and does not emit;
however the record-end test is a prefix test, so every line beginning with
`@end sign` — exact or a longer tag such as `@end signs` — emits the
current record. -/
theorem end_tag_dispatch :
    (∀ (st : ParseState) (raw : PyStr),
        startswith (pyStrip raw) (pystr "@end") = true →
        startswith (pyStrip raw) (pystr "@end sign") = false →
        processLine st raw =
          .ok { st with reports := st.reports ++ [Report.errEnd (pyStrip raw)] }) ∧
    (∀ (st : ParseState) (raw : PyStr),
        startswith (pyStrip raw) (pystr "@end sign") = true →
        processLine st raw = .ok { st with outputs := st.outputs ++ [st.cur] }) :=
  ⟨fun st raw h1 h2 => processLine_malformed_end st raw h1 h2,
   fun st raw h1 => processLine_end_sign st raw h1⟩

/-- C2 witness: `@end list` is reported without emitting, while `@end signs`
emits the open record. -/
theorem end_tag_dispatch_witness :
    processLine ⟨[mkSign (pystr "A")], some 0, [], []⟩ (pystr "@end list") =
      .ok ⟨[mkSign (pystr "A")], some 0, [], [Report.errEnd (pystr "@end list")]⟩ ∧
    processLine ⟨[mkSign (pystr "A")], some 0, [], []⟩ (pystr "@end signs") =
      .ok ⟨[mkSign (pystr "A")], some 0, [some 0], []⟩ :=
  ⟨end_tag_dispatch.1 ⟨[mkSign (pystr "A")], some 0, [], []⟩ (pystr "@end list")
      (by decide) (by decide),
   end_tag_dispatch.2 ⟨[mkSign (pystr "A")], some 0, [], []⟩ (pystr "@end signs")
      (by decide)⟩

/-- C3 amended: the decoder strips an optional leading `x` and parses the
*longest leading run* of hexadecimal digits as base-16, returning the
character at that scalar value (for values within Unicode range; larger
values raise `ValueError`); trailing non-hex characters are simply dropped.
Only a token with no leading hex digit after the optional `x` is returned
unchanged. -/
theorem ucode_hex_run_decoding :
    (∀ pre suf : PyStr, pre ≠ [] → (∀ c ∈ pre, pyIsHexDigit c = true) →
        suf.head?.all (fun c => !pyIsHexDigit c) = true →
        ucode_to_char (pre ++ suf) =
          (if hexToNat pre ≤ 0x10FFFF then .ok [hexToNat pre]
           else .error PyErr.valueError)) ∧
    (∀ pre suf : PyStr, pre ≠ [] → (∀ c ∈ pre, pyIsHexDigit c = true) →
        suf.head?.all (fun c => !pyIsHexDigit c) = true →
        ucode_to_char ('x' :: (pre ++ suf)) =
          (if hexToNat pre ≤ 0x10FFFF then .ok [hexToNat pre]
           else .error PyErr.valueError)) ∧
    (∀ code : PyStr,
        code.head?.all (fun c => !pyIsHexDigit c) = true →
        (code.head? = some 'x' →
          code.tail.head?.all (fun c => !pyIsHexDigit c) = true) →
        ucode_to_char code = .ok (code.map Char.toNat)) := by
  refine ⟨?_, ?_, ?_⟩
  · intro pre suf hne hhex hsuf
    cases pre with
    | nil => exact absurd rfl hne
    | cons a as =>
        have ha := hhex a (by simp)
        have htake := takeWhile_append_of_all (a :: as) suf hhex hsuf
        rw [List.cons_append] at htake
        simp only [ucode_to_char, ucodeGroup, List.cons_append]
        rw [if_neg (pyIsHexDigit_ne_x ha), if_pos ha, htake]
  · intro pre suf hne hhex hsuf
    cases pre with
    | nil => exact absurd rfl hne
    | cons a as =>
        have htake := takeWhile_append_of_all (a :: as) suf hhex hsuf
        simp only [ucode_to_char, ucodeGroup]
        rw [htake]
        simp
  · intro code h1 h2
    cases code with
    | nil => rfl
    | cons c cs =>
        simp only [List.head?_cons, Option.all_some, Bool.not_eq_eq_eq_not,
          Bool.not_true] at h1
        by_cases hx : c = 'x'
        · subst hx
          have h2' := h2 rfl
          have htk : cs.takeWhile pyIsHexDigit = [] := by
            cases cs with
            | nil => rfl
            | cons d ds =>
                simp only [List.tail_cons, List.head?_cons, Option.all_some,
                  Bool.not_eq_eq_eq_not, Bool.not_true] at h2'
                simp [List.takeWhile_cons, h2']
          simp only [ucode_to_char, ucodeGroup]
          rw [htk]
          simp
        · simp only [ucode_to_char, ucodeGroup]
          rw [if_neg hx, if_neg (by simp [h1])]

/-- C3 witness: the three shapes at concrete tokens. -/
theorem ucode_hex_run_decoding_witness :
    ucode_to_char (pystr "12" ++ pystr "WXYZ") = .ok [0x12] ∧
    ucode_to_char ('x' :: (pystr "AB" ++ pystr "g8")) = .ok [0xAB] ∧
    ucode_to_char (pystr "t41") = .ok ((pystr "t41").map Char.toNat) :=
  ⟨ucode_hex_run_decoding.1 (pystr "12") (pystr "WXYZ")
      (by decide) (by decide) (by decide),
   ucode_hex_run_decoding.2.1 (pystr "AB") (pystr "g8")
      (by decide) (by decide) (by decide),
   ucode_hex_run_decoding.2.2 (pystr "t41") (by decide) (by decide)⟩

/-- C4: a record whose only field line is `@ucode 1234` gets glyph
`chr(0x1234)`; a record whose only field line is `@ucode x41.x42` gets the
two-character glyph `AB`; and in general the glyph of a decoded token list
is the separator-free concatenation of the individually decoded tokens. -/
theorem ucode_glyph_concatenation :
    collected (parse_asl [pystr "@sign X", pystr "@ucode 1234", pystr "@end sign"]) =
      [some ⟨pystr "X", [], [0x1234], [], false⟩] ∧
    collected (parse_asl [pystr "@sign X", pystr "@ucode x41.x42", pystr "@end sign"]) =
      [some ⟨pystr "X", [], (pystr "AB").map Char.toNat, [], false⟩] ∧
    (∀ (toks : List PyStr) (cs : List (List Nat)),
        List.Forall₂ (fun t c => ucode_to_char t = .ok c) toks cs →
        joinChr toks = .ok cs.flatten) := by
  refine ⟨by decide, by decide, ?_⟩
  intro toks cs h
  induction h with
  | nil => rfl
  | cons hrel hall ih =>
      simp only [joinChr, hrel, ih, List.flatten_cons]
      rfl

/-- C4 witness: the general concatenation fact at two concrete tokens. -/
theorem ucode_glyph_concatenation_witness :
    joinChr [pystr "41", pystr "42"] = .ok ([[0x41], [0x42]].flatten) :=
  ucode_glyph_concatenation.2.2 [pystr "41", pystr "42"] [[0x41], [0x42]]
    (List.Forall₂.cons (by decide) (List.Forall₂.cons (by decide) List.Forall₂.nil))

/-- C5: a `@v` line inside an open record is split into at most three
whitespace-delimited tokens and exactly the second token is appended to the
record's values; three `@v` lines append their value identifiers in input
order. -/
theorem value_line_appends_second_token :
    (∀ (st : ParseState) (raw : PyStr) (i : Nat) (tok v : PyStr) (rest : List PyStr),
        st.cur = some i →
        startswith (pyStrip raw) (pystr "@v") = true →
        pySplitMax 2 (pyStrip raw) = tok :: v :: rest →
        processLine st raw =
          .ok { st with
            heap := updateAt (fun s => { s with values := s.values ++ [v] }) i st.heap }) ∧
    (∀ line : PyStr, (pySplitMax 2 line).length ≤ 3) ∧
    collected (parse_asl [pystr "@sign A", pystr "@v v1 a", pystr "@v v2 b",
        pystr "@v v3 c", pystr "@end sign"]) =
      [some ⟨pystr "A", [], [], [pystr "v1", pystr "v2", pystr "v3"], false⟩] :=
  ⟨fun st raw i tok v rest hcur h1 h2 => processLine_value st raw i tok v rest hcur h1 h2,
   fun line => pySplitMax_length 2 line,
   by decide⟩

/-- C5 witness: one `@v` line appends its second token to the open record. -/
theorem value_line_appends_second_token_witness :
    processLine ⟨[mkSign (pystr "A")], some 0, [], []⟩ (pystr "@v v1 a") =
      .ok ⟨[⟨pystr "A", [], [], [pystr "v1"], false⟩], some 0, [], []⟩ :=
  value_line_appends_second_token.1 ⟨[mkSign (pystr "A")], some 0, [], []⟩
    (pystr "@v v1 a") 0 (pystr "@v") (pystr "v1") [pystr "a"] rfl (by decide) (by decide)

/-- C7: a `@sign` line allocates a new current record named by the
remainder, silently abandoning any open record without emitting it, so
`[@sign A, @sign B, @end sign]` emits exactly one record, named `B`. -/
theorem sign_line_discards_open_record :
    (∀ (st : ParseState) (raw : PyStr) (name : PyStr),
        startswith (pyStrip raw) (pystr "@sign") = true →
        rest_of (pyStrip raw) = some name →
        processLine st raw =
          .ok { st with heap := st.heap ++ [mkSign name], cur := some st.heap.length }) ∧
    collected (parse_asl [pystr "@sign A", pystr "@sign B", pystr "@end sign"]) =
      [some ⟨pystr "B", [], [], [], false⟩] ∧
    (parse_asl [pystr "@sign A", pystr "@sign B", pystr "@end sign"]).outputs.length = 1 :=
  ⟨fun st raw name h1 h2 => processLine_sign st raw name h1 h2, by decide, by decide⟩

/-- C7 witness: a second `@sign` replaces the current record and emits
nothing. -/
theorem sign_line_discards_open_record_witness :
    processLine ⟨[mkSign (pystr "A")], some 0, [], []⟩ (pystr "@sign B") =
      .ok ⟨[mkSign (pystr "A"), mkSign (pystr "B")], some 1, [], []⟩ :=
  sign_line_discards_open_record.1 ⟨[mkSign (pystr "A")], some 0, [], []⟩
    (pystr "@sign B") (pystr "B") (by decide) (by decide)

/-- C8: a `@fake` line in an open record whose remainder exists sets the
record's fake flag to `true` — also for the literal remainders `0` and
`false`, because only non-emptiness of the remainder is tested. -/
theorem fake_line_sets_flag :
    (∀ (st : ParseState) (raw : PyStr) (i : Nat) (rest : PyStr),
        st.cur = some i →
        startswith (pyStrip raw) (pystr "@fake") = true →
        rest_of (pyStrip raw) = some rest →
        processLine st raw =
          .ok { st with heap := updateAt (fun s => { s with fake := true }) i st.heap }) ∧
    collected (parse_asl [pystr "@sign A", pystr "@fake 0", pystr "@end sign"]) =
      [some ⟨pystr "A", [], [], [], true⟩] ∧
    collected (parse_asl [pystr "@sign A", pystr "@fake false", pystr "@end sign"]) =
      [some ⟨pystr "A", [], [], [], true⟩] :=
  ⟨fun st raw i rest hcur h1 h2 => processLine_fake st raw i rest hcur h1 h2,
   by decide, by decide⟩

/-- C8 witness: `@fake 0` sets the flag of the open record. -/
theorem fake_line_sets_flag_witness :
    processLine ⟨[mkSign (pystr "A")], some 0, [], []⟩ (pystr "@fake 0") =
      .ok ⟨[⟨pystr "A", [], [], [], true⟩], some 0, [], []⟩ :=
  fake_line_sets_flag.1 ⟨[mkSign (pystr "A")], some 0, [], []⟩ (pystr "@fake 0") 0
    (pystr "0") rfl (by decide) (by decide)

end Ogsl
